import Mathlib

/-!
# Verification of the bonus-computation pipeline (`src/app.py`)

Shallow embedding of the core pipeline of the driver-bonus report
application: record normalization (`limpar_e_filtrar_dados`), the bonus
rule engine and aggregation (`calcular_bonus`).

Modelling conventions:
* pandas cells that can be NA are `Option`-valued; `pd.NaT` is `none`.
* Monetary / quantity values are exact rationals `ℚ` (the Python code
  uses binary floats; the claims under scrutiny are about the formulas
  and aggregation structure, not float representation).
* Calendar dates are integers (day numbers); pandas timestamp
  comparison on date-valued cells is integer comparison.
* `Series.astype(str)` turns a float `NaN` cell into the *string*
  `"nan"`, so a missing driver survives `astype` as the literal string
  `"nan"`; this is modelled exactly (`astype_str`).
* `Series.str.replace(r"\bALIAS\b", CANON, regex=True)` is modelled by
  an explicit left-to-right scanner (`rwAux`) that replaces a match and
  resumes scanning right after it, using the matched text's last
  character for the next word-boundary test, exactly as `re.sub` does.
  A word character is an ASCII alphanumeric, `_`, or any non-ASCII
  codepoint (the accented Latin letters appearing in this data are word
  characters for Python's Unicode `\w`/`\b`).
* Python `str.upper()` is modelled on ASCII and the Latin-1 letter
  block (which covers Portuguese names): `a`-`z` and `à`-`þ` (except
  `÷`) map down by 32, `ÿ` maps to `Ÿ`.
* In-place mutation of the caller's DataFrame by the column assignments
  in `limpar_e_filtrar_dados` is modelled by explicit state passing:
  `limpar_full` returns the caller's (mutated) collection alongside the
  function's result.
-/

deriving instance DecidableEq for Except

/-- A raw `DATA` cell before `pd.to_datetime(..., errors="coerce")`:
either a parseable date or an unparseable/missing value. -/
inductive RawDate where
  | parsed (d : ℤ)
  | invalid
  deriving DecidableEq

/-- A raw spreadsheet row as handed to `limpar_e_filtrar_dados`
(columns MOTORISTA, DATA, CENTRO DE CUSTO, QUANT., TOTAL (R$)).
`motorista = none` models a NaN cell. -/
structure RawRecord where
  motorista : Option String
  data : RawDate
  centro_custo : String
  quant : Option ℚ
  total : Option ℚ
  deriving DecidableEq

/-- A row after the in-place column mutations: `DATA` coerced
(`none` = NaT) and `MOTORISTA` turned into a plain string. -/
structure TripRecord where
  motorista : String
  data : Option ℤ
  centro_custo : String
  quant : Option ℚ
  total : Option ℚ
  deriving DecidableEq

/-- `pd.to_datetime(x, errors="coerce")` on one cell. -/
def to_datetime_coerce : RawDate → Option ℤ
  | .parsed d => some d
  | .invalid => none

/-- `Series.astype(str)` on one cell: a float NaN prints as `"nan"`. -/
def astype_str : Option String → String
  | none => "nan"
  | some s => s

/-- Python `str.upper()` on one character (ASCII and Latin-1 letters). -/
def upperChar (c : Char) : Char :=
  if 97 ≤ c.toNat ∧ c.toNat ≤ 122 then Char.ofNat (c.toNat - 32)
  else if 0xE0 ≤ c.toNat ∧ c.toNat ≤ 0xFE ∧ c.toNat ≠ 0xF7 then Char.ofNat (c.toNat - 32)
  else if c.toNat = 0xFF then Char.ofNat 0x178
  else c

/-- Whitespace for Python `str.strip()`. -/
def isWs (c : Char) : Bool :=
  c = ' ' || c = '\t' || c = '\n' || c = '\x0d' || c = '\x0b' || c = '\x0c'

/-- Python `str.strip()`: drop leading and trailing whitespace. -/
def trimChars (s : List Char) : List Char :=
  ((s.dropWhile isWs).reverse.dropWhile isWs).reverse

/-- Word character for the regex `\b` boundary (`re` word chars:
ASCII alphanumerics, `_`, and — for this data — non-ASCII letters). -/
def isWordChar (c : Char) : Bool :=
  c.isAlphanum || c = '_' || 0x80 ≤ c.toNat

/-- `\b` test on the left of a match: start of string or a non-word
character just before the match. -/
def bdryBefore : Option Char → Bool
  | none => true
  | some c => !isWordChar c

/-- `\b` test on the right of a match: end of string or a non-word
character right after the match. -/
def bdryAfter : List Char → Bool
  | [] => true
  | c :: _ => !isWordChar c

/-- Scanner for `re.sub(r"\bA\b", C, s)` where the pattern `A` is a
literal starting and ending in word characters.  `prev` is the input
character just before the current position.  Fuel is consumed one unit
per step; `fuel = s.length` always suffices (each step consumes at
least one input character when `a ≠ []`). -/
def rwAux (a c : List Char) : ℕ → Option Char → List Char → List Char
  | 0, _, s => s
  | n + 1, prev, s =>
    if a.isPrefixOf s && bdryBefore prev && bdryAfter (s.drop a.length) then
      c ++ rwAux a c n a.getLast? (s.drop a.length)
    else
      match s with
      | [] => []
      | ch :: rest => ch :: rwAux a c n (some ch) rest

/-- `Series.str.replace(r"\bA\b", C, regex=True)` on one string. -/
def replaceWord (a c s : List Char) : List Char :=
  rwAux a c s.length none s

/-- The MOTORISTA standardization of `limpar_e_filtrar_dados`:
upper-case, strip, then the two whole-word alias substitutions
`\bVINICIUS\b → VINÍCIUS` and `\bMARCOS NASCIMENTO\b → MARCOS`,
in that order. -/
def padronizar_motorista (s : String) : String :=
  ⟨replaceWord "MARCOS NASCIMENTO".data "MARCOS".data
    (replaceWord "VINICIUS".data "VINÍCIUS".data
      (trimChars (s.data.map upperChar)))⟩

/-- The two in-place column mutations applied to every row of the
caller's DataFrame (lines 96–105 of `src/app.py`). -/
def mutateRecord (r : RawRecord) : TripRecord :=
  { motorista := padronizar_motorista (astype_str r.motorista)
    data := to_datetime_coerce r.data
    centro_custo := r.centro_custo
    quant := r.quant
    total := r.total }

/-- The date-range mask `(DATA >= data_ini) & (DATA <= data_fim)`;
a NaT compares false. -/
def maskData (data_ini data_fim : ℤ) (r : TripRecord) : Bool :=
  match r.data with
  | some d => decide (data_ini ≤ d) && decide (d ≤ data_fim)
  | none => false

/-- Rows surviving `dropna(subset=["MOTORISTA", "DATA"])` and the date
mask.  After `astype(str)` the MOTORISTA column holds no NA at all, so
only the DATA condition of the `dropna` can drop a row. -/
def registros_apos_filtro (dados : List RawRecord) (data_ini data_fim : ℤ) :
    List TripRecord :=
  (((dados.map mutateRecord).filter (fun r => r.data.isSome)).filter
    (maskData data_ini data_fim))

/-- `limpar_e_filtrar_dados` with the caller's mutated collection made
explicit: the first component is the state of the caller's DataFrame
after the call (mutated even when the function raises). -/
def limpar_full (dados : List RawRecord) (data_ini data_fim : ℤ) :
    List TripRecord × Except String (List TripRecord) :=
  (dados.map mutateRecord,
    if (registros_apos_filtro dados data_ini data_fim).isEmpty then
      Except.error "Nenhum registro no intervalo de datas selecionado."
    else
      Except.ok (registros_apos_filtro dados data_ini data_fim))

/-- The return value / raised `ValueError` of `limpar_e_filtrar_dados`. -/
def limpar_e_filtrar_dados (dados : List RawRecord) (data_ini data_fim : ℤ) :
    Except String (List TripRecord) :=
  (limpar_full dados data_ini data_fim).2

/-- Round-half-to-even to an integer (the rounding of `numpy.round`). -/
def roundHalfEven (q : ℚ) : ℤ :=
  if q - ⌊q⌋ < 1 / 2 then ⌊q⌋
  else if 1 / 2 < q - ⌊q⌋ then ⌊q⌋ + 1
  else if ⌊q⌋ % 2 = 0 then ⌊q⌋ else ⌊q⌋ + 1

/-- `.round(2)`: round to 2 decimal places. -/
def round2 (q : ℚ) : ℚ := (roundHalfEven (q * 100) : ℚ) / 100

/-- The `np.select` of `calcular_bonus`: first matching condition wins,
default 0.  An arithmetic operation on an NA operand yields NA
(`none`). -/
def select_bonus (r : TripRecord) : Option ℚ :=
  if r.centro_custo ∈ (["FRETE BRITA", "AREIA"] : List String) then
    r.quant.map (fun q => q * 1)
  else if r.centro_custo ∈ (["FRETE CIMENTO", "FRETE ADITIVO"] : List String) then
    r.total.map (fun v => v * (2 / 100))
  else some 0

/-- The per-record `BÔNUS` column: `np.select(...).round(2)`. -/
def bonus_record (r : TripRecord) : Option ℚ :=
  (select_bonus r).map round2

/-- pandas `sum` over a column: NA cells are skipped. -/
def sum_skipna (xs : List (Option ℚ)) : ℚ := (xs.filterMap id).sum

/-- pandas `count` over a column: number of non-NA cells. -/
def count_notna (xs : List (Option ℚ)) : ℕ := (xs.filterMap id).length

/-- Strict codepoint-lexicographic order on character lists (Python's
string `<`). -/
def lexLt : List Char → List Char → Bool
  | [], [] => false
  | [], _ :: _ => true
  | _ :: _, [] => false
  | a :: as, b :: bs =>
    if a.toNat < b.toNat then true
    else if a.toNat = b.toNat then lexLt as bs
    else false

/-- Non-strict codepoint-lexicographic order on strings. -/
def strLe (a b : String) : Bool := lexLt a.data b.data || a == b

/-- Order on (MOTORISTA, CENTRO DE CUSTO) grouping keys. -/
def chaveLe (p q : String × String) : Bool :=
  lexLt p.1.data q.1.data || (p.1 == q.1 && strLe p.2 q.2)

/-- The driver keys of `groupby("MOTORISTA")` (`sort=True`:
distinct values in ascending order). -/
def motoristas_ordenados (l : List TripRecord) : List String :=
  List.insertionSort (fun a b => strLe a b = true)
    ((l.map (fun r => r.motorista)).dedup)

/-- The group of records of one driver. -/
def registros_motorista (l : List TripRecord) (d : String) : List TripRecord :=
  l.filter (fun r => r.motorista == d)

/-- `VIAGENS=("QUANT.", "count")` of the per-driver summary. -/
def viagens_motorista (l : List TripRecord) (d : String) : ℕ :=
  count_notna ((registros_motorista l d).map (fun r => r.quant))

/-- `BÔNUS=("BÔNUS", "sum")` of the per-driver summary, after the
`.round(2)` applied to the aggregated frame. -/
def bonus_motorista_val (l : List TripRecord) (d : String) : ℚ :=
  round2 (sum_skipna ((registros_motorista l d).map bonus_record))

/-- The `bonus_motorista` table: one row per driver, sorted by bonus
descending (`sort_values("BÔNUS", ascending=False)`). -/
def bonus_motorista_rows (l : List TripRecord) : List (String × ℕ × ℚ) :=
  List.insertionSort (fun x y => (x.2.2 ≥ y.2.2 : Prop))
    ((motoristas_ordenados l).map
      (fun d => (d, viagens_motorista l d, bonus_motorista_val l d)))

/-- The cost-center keys of `groupby("CENTRO DE CUSTO")`. -/
def centros_ordenados (l : List TripRecord) : List String :=
  List.insertionSort (fun a b => strLe a b = true)
    ((l.map (fun r => r.centro_custo)).dedup)

/-- The group of records of one cost center. -/
def registros_centro (l : List TripRecord) (cc : String) : List TripRecord :=
  l.filter (fun r => r.centro_custo == cc)

/-- `BÔNUS_TOTAL=("BÔNUS", "sum")` of the per-cost-center summary,
after `.round(2)`. -/
def bonus_centro_val (l : List TripRecord) (cc : String) : ℚ :=
  round2 (sum_skipna ((registros_centro l cc).map bonus_record))

/-- The `resumo_centro_custo` table: one row per cost center, sorted by
bonus descending. -/
def resumo_centro_custo_rows (l : List TripRecord) : List (String × ℚ) :=
  List.insertionSort (fun x y => (x.2 ≥ y.2 : Prop))
    ((centros_ordenados l).map (fun cc => (cc, bonus_centro_val l cc)))

/-- The (MOTORISTA, CENTRO DE CUSTO) keys of the detailed table, in
grouping-key order (`groupby` sorts the keys lexicographically). -/
def chaves_detalhe (l : List TripRecord) : List (String × String) :=
  List.insertionSort (fun p q => chaveLe p q = true)
    ((l.map (fun r => (r.motorista, r.centro_custo))).dedup)

/-- The group of records of one (driver, cost-center) key. -/
def registros_chave (l : List TripRecord) (k : String × String) :
    List TripRecord :=
  l.filter (fun r => r.motorista == k.1 && r.centro_custo == k.2)

/-- `VIAGENS` of one detailed row. -/
def viagens_chave (l : List TripRecord) (k : String × String) : ℕ :=
  count_notna ((registros_chave l k).map (fun r => r.quant))

/-- `QUANT` of one detailed row (after `.round(2)`). -/
def quant_chave (l : List TripRecord) (k : String × String) : ℚ :=
  round2 (sum_skipna ((registros_chave l k).map (fun r => r.quant)))

/-- `FATURAMENTO` of one detailed row (after `.round(2)`). -/
def faturamento_chave (l : List TripRecord) (k : String × String) : ℚ :=
  round2 (sum_skipna ((registros_chave l k).map (fun r => r.total)))

/-- `BÔNUS` of one detailed row (after `.round(2)`). -/
def bonus_chave (l : List TripRecord) (k : String × String) : ℚ :=
  round2 (sum_skipna ((registros_chave l k).map bonus_record))

/-- The `BÔNUS TOTAL` column: the driver's total is mapped onto every
row of the driver's group, then `x.where(x.index == x.index[0], None)`
keeps it only on the group's first row and leaves NA everywhere else. -/
def bonus_total_col (l : List TripRecord) (k : String × String) : Option ℚ :=
  if ((chaves_detalhe l).filter (fun p => p.1 == k.1)).head? = some k then
    some (bonus_motorista_val l k.1)
  else none

/-- The detailed table: one row per (driver, cost-center) key in
grouping-key order. -/
def tabela_detalhada (l : List TripRecord) :
    List ((String × String) × ℕ × ℚ × ℚ × ℚ × Option ℚ) :=
  (chaves_detalhe l).map
    (fun k => (k, viagens_chave l k, quant_chave l k, faturamento_chave l k,
      bonus_chave l k, bonus_total_col l k))

/-- `calcular_bonus`: the three summary tables. -/
def calcular_bonus (l : List TripRecord) :
    List ((String × String) × ℕ × ℚ × ℚ × ℚ × Option ℚ) ×
      List (String × ℕ × ℚ) × List (String × ℚ) :=
  (tabela_detalhada l, bonus_motorista_rows l, resumo_centro_custo_rows l)

/-- The pipeline as invoked by the UI: normalization then aggregation;
an error in normalization produces no tables at all. -/
def pipeline (dados : List RawRecord) (data_ini data_fim : ℤ) :
    Except String
      (List ((String × String) × ℕ × ℚ × ℚ × ℚ × Option ℚ) ×
        List (String × ℕ × ℚ) × List (String × ℚ)) :=
  (limpar_e_filtrar_dados dados data_ini data_fim).map calcular_bonus

/-- Feeding an already-normalized row back into the pipeline: the
cleaned DataFrame's cells as raw cells (`to_datetime` on an
already-datetime column and `astype(str)` on a string column are
identities, which this conversion makes explicit). -/
def recToRaw (r : TripRecord) : RawRecord :=
  { motorista := some r.motorista
    data := match r.data with
      | some d => RawDate.parsed d
      | none => RawDate.invalid
    centro_custo := r.centro_custo
    quant := r.quant
    total := r.total }

/-- Is the character at index `i` (if any) a word character? -/
def wordAtB (s : List Char) (i : ℕ) : Bool :=
  match s[i]? with
  | some ch => isWordChar ch
  | none => false

/-- Every occurrence of `a` in `s` is flanked by a word character,
i.e. `a` occurs only as a proper part of a longer token and never as a
whole word.  (Vacuously true when `a` does not occur at all.) -/
def posFlanked (a s : List Char) : Prop :=
  ∀ i, i < s.length → (s.drop i).take a.length = a →
    (0 < i ∧ wordAtB s (i - 1) = true) ∨ wordAtB s (i + a.length) = true

instance decPosFlanked (a s : List Char) : Decidable (posFlanked a s) := by
  unfold posFlanked
  infer_instance

/-- An exact multiple of 1/100 — the form of every already-rounded
monetary value. -/
def isCent (q : ℚ) : Prop := ∃ n : ℤ, q = (n : ℚ) / 100

/-- Concrete raw row with a missing (NaN) MOTORISTA cell, dated inside
the filter range. -/
def rawC1 : RawRecord :=
  { motorista := none, data := RawDate.parsed 10, centro_custo := "AREIA",
    quant := some 10, total := some 100 }

/-- What `rawC1` becomes after the in-place mutations: the missing
driver has turned into the literal string `"NAN"`. -/
def recC1 : TripRecord :=
  { motorista := "NAN", data := some 10, centro_custo := "AREIA",
    quant := some 10, total := some 100 }

/-- Concrete raw row whose driver name contains the alias
`MARCOS NASCIMENTO` followed by a second whole token `NASCIMENTO`. -/
def rawMNN : RawRecord :=
  { motorista := some "MARCOS NASCIMENTO NASCIMENTO", data := RawDate.parsed 5,
    centro_custo := "FRETE BRITA", quant := some 1, total := some 1 }

/-- First normalization of `rawMNN`: replacing the alias recreates the
alias `MARCOS NASCIMENTO` as the whole driver name. -/
def recMN : TripRecord :=
  { motorista := "MARCOS NASCIMENTO", data := some 5,
    centro_custo := "FRETE BRITA", quant := some 1, total := some 1 }

/-- Second normalization of the same row: the recreated alias is
rewritten again, to `MARCOS`. -/
def recM : TripRecord :=
  { motorista := "MARCOS", data := some 5, centro_custo := "FRETE BRITA",
    quant := some 1, total := some 1 }

/-- A raw row with an already-canonical (once normalized) driver name,
used to witness the restricted idempotence of normalization. -/
def rawAna : RawRecord :=
  { motorista := some "  ana  ", data := RawDate.parsed 5, centro_custo := "AREIA",
    quant := some 1, total := some 2 }

/-- The normalization of `rawAna`; renormalizing it changes nothing. -/
def recAna : TripRecord :=
  { motorista := "ANA", data := some 5, centro_custo := "AREIA",
    quant := some 1, total := some 2 }

/-- A record with a missing QUANT. cell (used to witness the trip-count
semantics). -/
def recSemQuant : TripRecord :=
  { motorista := "ANA", data := some 1, centro_custo := "FRETE CIMENTO",
    quant := none, total := some 50 }

/-- A record in an unclassified cost center (used to witness the
default bonus rule). -/
def recOutroCentro : TripRecord :=
  { motorista := "BIA", data := some 2, centro_custo := "MANUTENÇÃO",
    quant := some 3, total := some 7 }

/-! ## General lemmas -/

theorem roundHalfEven_intCast (n : ℤ) : roundHalfEven (n : ℚ) = n := by
  unfold roundHalfEven
  rw [Int.floor_intCast]
  norm_num

theorem round2_cent_fix (q : ℚ) (h : isCent q) : round2 q = q := by
  obtain ⟨n, rfl⟩ := h
  unfold round2
  rw [div_mul_cancel₀ _ (by norm_num : (100 : ℚ) ≠ 0), roundHalfEven_intCast]

theorem round2_isCent (q : ℚ) : isCent (round2 q) := ⟨roundHalfEven (q * 100), rfl⟩

theorem round2_zero : round2 0 = 0 :=
  round2_cent_fix 0 ⟨0, by norm_num⟩

theorem isCent_add {a b : ℚ} (ha : isCent a) (hb : isCent b) : isCent (a + b) := by
  obtain ⟨m, rfl⟩ := ha
  obtain ⟨n, rfl⟩ := hb
  exact ⟨m + n, by push_cast; ring⟩

theorem bonus_record_isCent (r : TripRecord) (b : ℚ)
    (h : bonus_record r = some b) : isCent b := by
  unfold bonus_record at h
  rcases hx : select_bonus r with _ | x
  · rw [hx] at h; simp at h
  · rw [hx] at h
    simp only [Option.map_some'] at h
    obtain rfl : round2 x = b := by injection h
    exact round2_isCent x

theorem sum_skipna_nil : sum_skipna [] = 0 := rfl

theorem sum_skipna_cons (x : Option ℚ) (xs : List (Option ℚ)) :
    sum_skipna (x :: xs) = x.getD 0 + sum_skipna xs := by
  cases x <;> simp [sum_skipna, List.filterMap_cons]

theorem sum_skipna_append (xs ys : List (Option ℚ)) :
    sum_skipna (xs ++ ys) = sum_skipna xs + sum_skipna ys := by
  unfold sum_skipna
  rw [List.filterMap_append, List.sum_append]

theorem sum_skipna_isCent (xs : List (Option ℚ))
    (h : ∀ x ∈ xs, ∀ b, x = some b → isCent b) : isCent (sum_skipna xs) := by
  induction xs with
  | nil => exact ⟨0, by rw [sum_skipna_nil]; norm_num⟩
  | cons x xs ih =>
    rw [sum_skipna_cons]
    refine isCent_add ?_ (ih (fun y hy => h y (List.mem_cons_of_mem _ hy)))
    cases x with
    | none => exact ⟨0, by norm_num⟩
    | some b => exact h _ (List.mem_cons_self _ _) b rfl

theorem sum_skipna_eq_sum_getD (xs : List (Option ℚ)) :
    sum_skipna xs = (xs.map (fun x => x.getD 0)).sum := by
  induction xs with
  | nil => rfl
  | cons x xs ih => rw [sum_skipna_cons, List.map_cons, List.sum_cons, ih]

theorem length_filterMap_eq_length_filter {α β : Type} (f : α → Option β)
    (l : List α) :
    (l.filterMap f).length = (l.filter (fun a => (f a).isSome)).length := by
  induction l with
  | nil => rfl
  | cons a l ih =>
    rw [List.filterMap_cons, List.filter_cons]
    cases h : f a <;> simp [h, ih]

theorem mem_registros_apos_filtro (dados : List RawRecord) (data_ini data_fim : ℤ)
    (r : TripRecord) :
    r ∈ registros_apos_filtro dados data_ini data_fim ↔
      r ∈ dados.map mutateRecord ∧
        ∃ d, r.data = some d ∧ data_ini ≤ d ∧ d ≤ data_fim := by
  unfold registros_apos_filtro
  simp only [List.mem_filter]
  constructor
  · rintro ⟨⟨hm, _⟩, hmask⟩
    refine ⟨hm, ?_⟩
    unfold maskData at hmask
    rcases hd : r.data with _ | d
    · rw [hd] at hmask; exact absurd hmask (by simp)
    · rw [hd] at hmask
      simp only [Bool.and_eq_true, decide_eq_true_eq] at hmask
      exact ⟨d, rfl, hmask.1, hmask.2⟩
  · rintro ⟨hm, d, hd, h1, h2⟩
    refine ⟨⟨hm, by simp [hd]⟩, ?_⟩
    unfold maskData
    rw [hd]
    simp [h1, h2]

theorem limpar_ok_iff (dados : List RawRecord) (data_ini data_fim : ℤ)
    (out : List TripRecord) :
    limpar_e_filtrar_dados dados data_ini data_fim = Except.ok out ↔
      registros_apos_filtro dados data_ini data_fim = out ∧ out ≠ [] := by
  unfold limpar_e_filtrar_dados limpar_full
  simp only []
  split
  · rename_i hemp
    rw [List.isEmpty_iff] at hemp
    constructor
    · intro h; exact absurd h (by simp)
    · rintro ⟨rfl, hne⟩; exact absurd hemp hne
  · rename_i hemp
    rw [List.isEmpty_iff] at hemp
    constructor
    · intro h
      obtain rfl : registros_apos_filtro dados data_ini data_fim = out := by
        injection h
      exact ⟨rfl, hemp⟩
    · rintro ⟨rfl, _⟩; rfl

theorem limpar_error_iff (dados : List RawRecord) (data_ini data_fim : ℤ) :
    (∃ e, limpar_e_filtrar_dados dados data_ini data_fim = Except.error e) ↔
      registros_apos_filtro dados data_ini data_fim = [] := by
  unfold limpar_e_filtrar_dados limpar_full
  simp only []
  split
  · rename_i hemp
    rw [List.isEmpty_iff] at hemp
    simp [hemp]
  · rename_i hemp
    rw [List.isEmpty_iff] at hemp
    simp [hemp]

/-! ## Claims -/

/-- **C9** — `limpar_e_filtrar_dados` mutates the caller's collection in
place: after any call the caller's DataFrame holds, row by row (dropped
and filtered rows included), the coerced DATA and the upper-cased,
trimmed, alias-rewritten MOTORISTA; and this is equally true when the
call fails with the empty-result `ValueError` — the failure is not
atomic with respect to the input. -/
theorem c9_mutacao_in_place (dados : List RawRecord) (data_ini data_fim : ℤ) :
    (limpar_full dados data_ini data_fim).1 = dados.map mutateRecord ∧
    (∀ i : ℕ, ((limpar_full dados data_ini data_fim).1)[i]? =
      (dados[i]?).map mutateRecord) ∧
    (∀ e, (limpar_full dados data_ini data_fim).2 = Except.error e →
      (limpar_full dados data_ini data_fim).1 = dados.map mutateRecord) := by
  refine ⟨rfl, fun i => ?_, fun _ _ => rfl⟩
  simp [limpar_full]

/-- Witness for C9 at a failing input: the selected range is empty, the
call raises, and the caller's collection is mutated anyway. -/
theorem c9_mutacao_in_place_witness :
    (limpar_full [rawC1] 20 25).1 = [rawC1].map mutateRecord :=
  (c9_mutacao_in_place [rawC1] 20 25).2.2
    "Nenhum registro no intervalo de datas selecionado." (by decide)

/-- **C1** — the claim fails on the code: a raw row with a missing
MOTORISTA is *not* excluded.  `astype(str)` turns the NaN into the
string `"nan"` before `dropna(subset=["MOTORISTA", ...])` runs, so the
`dropna` never sees a null driver: the row survives as driver `"NAN"`,
appears in the normalized output, and contributes its trips and bonus
to the summary tables. -/
theorem c1_motorista_ausente_nao_excluido :
    rawC1.motorista = none ∧
    limpar_e_filtrar_dados [rawC1] 1 31 = Except.ok [recC1] ∧
    recC1.motorista = "NAN" ∧
    bonus_motorista_val [recC1] "NAN" = 10 ∧
    viagens_motorista [recC1] "NAN" = 1 := by
  have h1 : round2 (10 * 1) = 10 := by
    have : ((10 : ℚ) * 1) = ((1000 : ℤ) : ℚ) / 100 := by norm_num
    rw [this, round2_cent_fix _ ⟨1000, rfl⟩]
    norm_num
  have h2 : round2 10 = 10 := by
    have : ((10 : ℚ)) = ((1000 : ℤ) : ℚ) / 100 := by norm_num
    rw [this, round2_cent_fix _ ⟨1000, rfl⟩]
  refine ⟨rfl, by decide, rfl, ?_, by decide⟩
  simp [bonus_motorista_val, registros_motorista, recC1, sum_skipna, bonus_record,
    select_bonus, h1, h2]

/-- **C2** — the bonus rule engine: for a record with both numeric
fields present, the bonus is `quantity × 1.00` in the aggregate-hauling
centers FRETE BRITA / AREIA, `total_value × 0.02` in the
cement/additive centers FRETE CIMENTO / FRETE ADITIVO, and `0` in any
other cost center, rounded to 2 decimal places; `bonus_record` is a
function of the single record, so the choice depends only on that
record's own fields. -/
theorem c2_regras_bonus (r : TripRecord) (q v : ℚ)
    (hq : r.quant = some q) (hv : r.total = some v) :
    bonus_record r = some (
      if r.centro_custo = "FRETE BRITA" ∨ r.centro_custo = "AREIA" then
        round2 (q * 1)
      else if r.centro_custo = "FRETE CIMENTO" ∨ r.centro_custo = "FRETE ADITIVO" then
        round2 (v * (2 / 100))
      else 0) := by
  unfold bonus_record select_bonus
  simp only [List.mem_cons, List.mem_singleton, List.not_mem_nil, or_false]
  split
  · rename_i h
    simp [hq, h]
  · rename_i h
    split
    · rename_i h2
      simp [hv, h, h2]
    · rename_i h2
      simp [h, h2, round2_zero]

/-- Witness for C2: a record in an unclassified cost center gets the
default rule. -/
theorem c2_regras_bonus_witness :
    bonus_record recOutroCentro = some (
      if recOutroCentro.centro_custo = "FRETE BRITA" ∨
          recOutroCentro.centro_custo = "AREIA" then
        round2 (3 * 1)
      else if recOutroCentro.centro_custo = "FRETE CIMENTO" ∨
          recOutroCentro.centro_custo = "FRETE ADITIVO" then
        round2 (7 * (2 / 100))
      else 0) :=
  c2_regras_bonus recOutroCentro 3 7 rfl rfl

/-- **C5** — the date filter is inclusive at both ends: a record of the
cleaned collection is in the returned set exactly when its date `d`
satisfies `data_ini ≤ d ∧ d ≤ data_fim`; in particular a record dated
exactly `data_ini` or exactly `data_fim` is retained and a record dated
strictly outside the range is removed. -/
theorem c5_filtro_datas_inclusivo (dados : List RawRecord)
    (data_ini data_fim : ℤ) (out : List TripRecord)
    (h : limpar_e_filtrar_dados dados data_ini data_fim = Except.ok out) :
    ∀ r, r ∈ out ↔ r ∈ dados.map mutateRecord ∧
      ∃ d, r.data = some d ∧ data_ini ≤ d ∧ d ≤ data_fim := by
  obtain ⟨rfl, -⟩ := (limpar_ok_iff dados data_ini data_fim out).1 h
  exact fun r => mem_registros_apos_filtro dados data_ini data_fim r

/-- Witness for C5: in a two-row data set dated exactly at the two
bounds, the record dated exactly `data_ini` is retained. -/
theorem c5_filtro_datas_inclusivo_witness :
    mutateRecord rawMNN ∈ [recMN, { recMN with data := some 9 }] :=
  (c5_filtro_datas_inclusivo
    [{ rawMNN with data := RawDate.parsed 5 },
      { rawMNN with data := RawDate.parsed 9 }] 5 9
    [recMN, { recMN with data := some 9 }] (by decide)
    (mutateRecord rawMNN)).2
    ⟨by decide, 5, by decide, by decide, by decide⟩

/-- **C6** — `limpar_e_filtrar_dados` fails (with the empty-result
`ValueError`) exactly when zero records remain after cleaning and date
filtering; in that case the pipeline produces no tables at all, and
with at least one surviving record it returns them normally. -/
theorem c6_erro_sse_vazio (dados : List RawRecord) (data_ini data_fim : ℤ) :
    ((∃ e, limpar_e_filtrar_dados dados data_ini data_fim = Except.error e) ↔
      registros_apos_filtro dados data_ini data_fim = []) ∧
    ((∃ e, pipeline dados data_ini data_fim = Except.error e) ↔
      registros_apos_filtro dados data_ini data_fim = []) ∧
    (registros_apos_filtro dados data_ini data_fim ≠ [] →
      limpar_e_filtrar_dados dados data_ini data_fim =
        Except.ok (registros_apos_filtro dados data_ini data_fim) ∧
      pipeline dados data_ini data_fim =
        Except.ok (calcular_bonus (registros_apos_filtro dados data_ini data_fim))) := by
  refine ⟨limpar_error_iff dados data_ini data_fim, ?_, ?_⟩
  · rw [← limpar_error_iff dados data_ini data_fim]
    unfold pipeline
    constructor
    · rintro ⟨e, he⟩
      refine ⟨e, ?_⟩
      rcases hl : limpar_e_filtrar_dados dados data_ini data_fim with e' | v
      · rw [hl] at he
        obtain rfl : e' = e := by injection he
        rfl
      · rw [hl] at he; exact absurd he (by simp [Except.map])
    · rintro ⟨e, he⟩
      exact ⟨e, by rw [he]; rfl⟩
  · intro hne
    have hok : limpar_e_filtrar_dados dados data_ini data_fim =
        Except.ok (registros_apos_filtro dados data_ini data_fim) :=
      (limpar_ok_iff dados data_ini data_fim _).2 ⟨rfl, hne⟩
    exact ⟨hok, by unfold pipeline; rw [hok]; rfl⟩

/-- Witness for C6: with one record surviving, the cleaner and the
pipeline both return normally. -/
theorem c6_erro_sse_vazio_witness :
    limpar_e_filtrar_dados [rawC1] 1 31 = Except.ok [recC1] ∧
    pipeline [rawC1] 1 31 = Except.ok (calcular_bonus [recC1]) := by
  have h := (c6_erro_sse_vazio [rawC1] 1 31).2.2 (by decide)
  have he : registros_apos_filtro [rawC1] 1 31 = [recC1] := by decide
  rw [he] at h
  exact h

/-- **C10** — `VIAGENS` counts, both per (driver, cost-center) row and
per driver, only the records whose QUANT. cell is present
(`("QUANT.", "count")` counts non-NA cells), while a record with a
missing QUANT. stays in its group: appending such a record leaves both
trip counts unchanged yet adds its TOTAL (R$) and its (NA-skipping)
bonus contribution to the group's value and bonus sums. -/
theorem c10_viagens_conta_quant_presente (l : List TripRecord)
    (r : TripRecord) (hq : r.quant = none) :
    (∀ l' d, viagens_motorista l' d =
      ((registros_motorista l' d).filter (fun x => x.quant.isSome)).length) ∧
    (∀ l' k, viagens_chave l' k =
      ((registros_chave l' k).filter (fun x => x.quant.isSome)).length) ∧
    r ∈ registros_motorista (l ++ [r]) r.motorista ∧
    viagens_motorista (l ++ [r]) r.motorista = viagens_motorista l r.motorista ∧
    viagens_chave (l ++ [r]) (r.motorista, r.centro_custo) =
      viagens_chave l (r.motorista, r.centro_custo) ∧
    sum_skipna ((registros_motorista (l ++ [r]) r.motorista).map
        (fun x => x.total)) =
      sum_skipna ((registros_motorista l r.motorista).map (fun x => x.total)) +
        (r.total).getD 0 ∧
    sum_skipna ((registros_motorista (l ++ [r]) r.motorista).map bonus_record) =
      sum_skipna ((registros_motorista l r.motorista).map bonus_record) +
        (bonus_record r).getD 0 := by
  have hreg : registros_motorista (l ++ [r]) r.motorista =
      registros_motorista l r.motorista ++ [r] := by
    unfold registros_motorista
    rw [List.filter_append]
    simp
  have hregk : registros_chave (l ++ [r]) (r.motorista, r.centro_custo) =
      registros_chave l (r.motorista, r.centro_custo) ++ [r] := by
    unfold registros_chave
    rw [List.filter_append]
    simp
  refine ⟨?_, ?_, ?_, ?_, ?_, ?_, ?_⟩
  · intro l' d
    unfold viagens_motorista count_notna
    rw [length_filterMap_eq_length_filter]
    rw [List.filter_map]
    simp [Function.comp_def]
  · intro l' k
    unfold viagens_chave count_notna
    rw [length_filterMap_eq_length_filter]
    rw [List.filter_map]
    simp [Function.comp_def]
  · rw [hreg]; exact List.mem_append_right _ (List.mem_singleton_self r)
  · unfold viagens_motorista count_notna
    rw [hreg, List.map_append, List.filterMap_append]
    simp [hq]
  · unfold viagens_chave count_notna
    rw [hregk, List.map_append, List.filterMap_append]
    simp [hq]
  · rw [hreg, List.map_append, sum_skipna_append]
    cases ht : r.total <;> simp [sum_skipna, ht]
  · rw [hreg, List.map_append, sum_skipna_append]
    cases hb : bonus_record r <;> simp [sum_skipna, hb]

/-- Witness for C10: a cement-hauling record with a missing QUANT. is
not counted as a trip but its value and bonus still feed the sums. -/
theorem c10_viagens_conta_quant_presente_witness :
    viagens_motorista ([] ++ [recSemQuant]) "ANA" = viagens_motorista [] "ANA" ∧
    sum_skipna ((registros_motorista ([] ++ [recSemQuant]) "ANA").map
        (fun x => x.total)) =
      sum_skipna ((registros_motorista [] "ANA").map (fun x => x.total)) +
        (recSemQuant.total).getD 0 :=
  ⟨(c10_viagens_conta_quant_presente [] recSemQuant rfl).2.2.2.1,
    (c10_viagens_conta_quant_presente [] recSemQuant rfl).2.2.2.2.2.1⟩

theorem sum_map_filter_add {α : Type} (p : α → Bool) (f : α → ℚ) (l : List α) :
    ((l.filter p).map f).sum + ((l.filter (fun a => !p a)).map f).sum =
      (l.map f).sum := by
  induction l with
  | nil => simp
  | cons a l ih =>
    rw [List.filter_cons, List.filter_cons]
    cases h : p a
    · rw [if_neg (by simp [h]), if_pos (by simp [h])]
      simp only [List.map_cons, List.sum_cons]
      linarith [ih]
    · rw [if_pos (by simp [h]), if_neg (by simp [h])]
      simp only [List.map_cons, List.sum_cons]
      linarith [ih]

theorem sum_partition {α κ : Type} [DecidableEq κ] (key : α → κ) (f : α → ℚ) :
    ∀ (ks : List κ) (l : List α), ks.Nodup → (∀ a ∈ l, key a ∈ ks) →
      (ks.map (fun k => ((l.filter (fun a => key a == k)).map f).sum)).sum =
        (l.map f).sum := by
  intro ks
  induction ks with
  | nil =>
    intro l _ hcov
    have hl : l = [] :=
      List.eq_nil_iff_forall_not_mem.2 (fun a ha => by simpa using hcov a ha)
    subst hl
    simp
  | cons k ks ih =>
    intro l hnd hcov
    have hkn : k ∉ ks := (List.nodup_cons.1 hnd).1
    have heq : ∀ k' ∈ ks,
        l.filter (fun a => key a == k') =
          (l.filter (fun a => !(key a == k))).filter (fun a => key a == k') := by
      intro k' hk'
      rw [List.filter_filter]
      apply List.filter_congr
      intro a _
      cases hak : (key a == k') with
      | false => simp
      | true =>
        have hka : key a = k' := by simpa using hak
        have hne : ¬(key a = k) := by
          intro hk
          have hkk : k' = k := by rw [← hka, hk]
          exact hkn (hkk ▸ hk')
        simp [hne]
    rw [List.map_cons, List.sum_cons]
    have hmap : ks.map (fun k' => ((l.filter (fun a => key a == k')).map f).sum) =
        ks.map (fun k' =>
          (((l.filter (fun a => !(key a == k))).filter
            (fun a => key a == k')).map f).sum) := by
      apply List.map_congr_left
      intro k' hk'
      rw [heq k' hk']
    rw [hmap, ih (l.filter (fun a => !(key a == k))) (List.nodup_cons.1 hnd).2 ?_]
    · exact sum_map_filter_add (fun a => key a == k) f l
    · intro a ha
      have hal : a ∈ l := (List.mem_filter.1 ha).1
      have hak : ¬(key a = k) := by
        have := (List.mem_filter.1 ha).2
        simpa using this
      rcases List.mem_cons.1 (hcov a hal) with h | h
      · exact absurd h hak
      · exact h

theorem nodup_motoristas_ordenados (l : List TripRecord) :
    (motoristas_ordenados l).Nodup :=
  (List.perm_insertionSort _ _).nodup_iff.2 (List.nodup_dedup _)

theorem mem_motoristas_ordenados (l : List TripRecord) (r : TripRecord)
    (hr : r ∈ l) : r.motorista ∈ motoristas_ordenados l :=
  (List.perm_insertionSort _ _).mem_iff.2
    (List.mem_dedup.2 (List.mem_map_of_mem _ hr))

theorem nodup_centros_ordenados (l : List TripRecord) :
    (centros_ordenados l).Nodup :=
  (List.perm_insertionSort _ _).nodup_iff.2 (List.nodup_dedup _)

theorem mem_centros_ordenados (l : List TripRecord) (r : TripRecord)
    (hr : r ∈ l) : r.centro_custo ∈ centros_ordenados l :=
  (List.perm_insertionSort _ _).mem_iff.2
    (List.mem_dedup.2 (List.mem_map_of_mem _ hr))

theorem nodup_chaves_detalhe (l : List TripRecord) :
    (chaves_detalhe l).Nodup :=
  (List.perm_insertionSort _ _).nodup_iff.2 (List.nodup_dedup _)

theorem mem_chaves_detalhe (l : List TripRecord) (r : TripRecord)
    (hr : r ∈ l) : (r.motorista, r.centro_custo) ∈ chaves_detalhe l :=
  (List.perm_insertionSort _ _).mem_iff.2
    (List.mem_dedup.2 (List.mem_map_of_mem _ hr))

theorem sum_skipna_map_bonus (xs : List TripRecord) :
    sum_skipna (xs.map bonus_record) =
      (xs.map (fun r => (bonus_record r).getD 0)).sum := by
  rw [sum_skipna_eq_sum_getD, List.map_map]
  rfl

theorem isCent_sum_skipna_bonus (xs : List TripRecord) :
    isCent (sum_skipna (xs.map bonus_record)) := by
  apply sum_skipna_isCent
  intro x hx b hxb
  obtain ⟨r, _, rfl⟩ := List.mem_map.1 hx
  exact bonus_record_isCent r b hxb

theorem bonus_motorista_val_eq_sum (l : List TripRecord) (d : String) :
    bonus_motorista_val l d =
      ((registros_motorista l d).map (fun r => (bonus_record r).getD 0)).sum := by
  unfold bonus_motorista_val
  rw [round2_cent_fix _ (isCent_sum_skipna_bonus _), sum_skipna_map_bonus]

theorem bonus_centro_val_eq_sum (l : List TripRecord) (cc : String) :
    bonus_centro_val l cc =
      ((registros_centro l cc).map (fun r => (bonus_record r).getD 0)).sum := by
  unfold bonus_centro_val
  rw [round2_cent_fix _ (isCent_sum_skipna_bonus _), sum_skipna_map_bonus]

theorem bonus_chave_eq_sum (l : List TripRecord) (k : String × String) :
    bonus_chave l k =
      ((registros_chave l k).map (fun r => (bonus_record r).getD 0)).sum := by
  unfold bonus_chave
  rw [round2_cent_fix _ (isCent_sum_skipna_bonus _), sum_skipna_map_bonus]

/-- **C3** — conservation of bonus totals across the summary views
(exact equality, hence in particular within any rounding tolerance):
the `BÔNUS` column of the per-driver table, the `BÔNUS_TOTAL` column of
the per-cost-center table, and the per-record `BÔNUS` column all sum to
the same value, and for every driver the bonus of that driver's rows of
the detailed table sums to the driver's summary bonus. -/
theorem c3_conservacao_bonus (l : List TripRecord) :
    ((bonus_motorista_rows l).map (fun x => x.2.2)).sum =
      sum_skipna (l.map bonus_record) ∧
    ((resumo_centro_custo_rows l).map (fun x => x.2)).sum =
      sum_skipna (l.map bonus_record) ∧
    ∀ d, (((chaves_detalhe l).filter (fun p => p.1 == d)).map
        (fun k => bonus_chave l k)).sum = bonus_motorista_val l d := by
  refine ⟨?_, ?_, ?_⟩
  · unfold bonus_motorista_rows
    rw [((List.perm_insertionSort _ _).map (fun x : String × ℕ × ℚ => x.2.2)).sum_eq]
    rw [List.map_map, sum_skipna_map_bonus]
    have : ((motoristas_ordenados l).map
        ((fun x : String × ℕ × ℚ => x.2.2) ∘
          (fun d => (d, viagens_motorista l d, bonus_motorista_val l d)))) =
        (motoristas_ordenados l).map
          (fun d => ((registros_motorista l d).map
            (fun r => (bonus_record r).getD 0)).sum) := by
      apply List.map_congr_left
      intro d _
      exact bonus_motorista_val_eq_sum l d
    rw [this]
    exact sum_partition (fun r : TripRecord => r.motorista) _
      (motoristas_ordenados l) l (nodup_motoristas_ordenados l)
      (fun r hr => mem_motoristas_ordenados l r hr)
  · unfold resumo_centro_custo_rows
    rw [((List.perm_insertionSort _ _).map (fun x : String × ℚ => x.2)).sum_eq]
    rw [List.map_map, sum_skipna_map_bonus]
    have : ((centros_ordenados l).map
        ((fun x : String × ℚ => x.2) ∘ (fun cc => (cc, bonus_centro_val l cc)))) =
        (centros_ordenados l).map
          (fun cc => ((registros_centro l cc).map
            (fun r => (bonus_record r).getD 0)).sum) := by
      apply List.map_congr_left
      intro cc _
      exact bonus_centro_val_eq_sum l cc
    rw [this]
    exact sum_partition (fun r : TripRecord => r.centro_custo) _
      (centros_ordenados l) l (nodup_centros_ordenados l)
      (fun r hr => mem_centros_ordenados l r hr)
  · intro d
    rw [bonus_motorista_val_eq_sum]
    have hchave : ∀ k ∈ (chaves_detalhe l).filter (fun p => p.1 == d),
        bonus_chave l k =
          (((registros_motorista l d).filter
            (fun r => r.centro_custo == k.2)).map
              (fun r => (bonus_record r).getD 0)).sum := by
      intro k hk
      have hk1 : k.1 = d := by
        have := (List.mem_filter.1 hk).2
        simpa using this
      rw [bonus_chave_eq_sum]
      have hfe : registros_chave l k =
          (registros_motorista l d).filter (fun r => r.centro_custo == k.2) := by
        unfold registros_chave registros_motorista
        rw [List.filter_filter]
        apply List.filter_congr
        intro r _
        rw [hk1]
        cases hm : (r.motorista == d) <;> cases hc : (r.centro_custo == k.2) <;>
          simp [hm, hc]
      rw [hfe]
    rw [List.map_congr_left hchave]
    have hmm : (((chaves_detalhe l).filter (fun p => p.1 == d)).map
        (fun k => (((registros_motorista l d).filter
          (fun r => r.centro_custo == k.2)).map
            (fun r => (bonus_record r).getD 0)).sum)) =
        ((((chaves_detalhe l).filter (fun p => p.1 == d)).map
          (fun p => p.2)).map
            (fun c => (((registros_motorista l d).filter
              (fun r => r.centro_custo == c)).map
                (fun r => (bonus_record r).getD 0)).sum)) := by
      rw [List.map_map]
      rfl
    rw [hmm]
    apply sum_partition (fun r : TripRecord => r.centro_custo) _
      ((((chaves_detalhe l).filter (fun p => p.1 == d)).map (fun p => p.2)))
    · apply List.Nodup.map_on
      · intro x hx y hy hxy
        have hx1 : x.1 = d := by simpa using (List.mem_filter.1 hx).2
        have hy1 : y.1 = d := by simpa using (List.mem_filter.1 hy).2
        obtain ⟨x1, x2⟩ := x
        obtain ⟨y1, y2⟩ := y
        simp only at hx1 hy1 hxy
        rw [hx1, hy1, hxy]
      · exact List.Nodup.filter _ (nodup_chaves_detalhe l)
    · intro r hr
      have hrl : r ∈ l := (List.mem_filter.1 hr).1
      have hrd : r.motorista = d := by simpa using (List.mem_filter.1 hr).2
      have : (r.motorista, r.centro_custo) ∈
          (chaves_detalhe l).filter (fun p => p.1 == d) := by
        rw [List.mem_filter]
        exact ⟨mem_chaves_detalhe l r hrl, by simpa using hrd⟩
      exact (List.mem_map.2 ⟨(r.motorista, r.centro_custo), this, rfl⟩)

/-- **C4** — grand-total placement in the detailed table: for every
driver appearing in the data there is exactly one key of that driver
whose `BÔNUS TOTAL` cell is non-absent, namely the *first* key of the
driver's group in grouping-key order (the head of the driver's slice of
`chaves_detalhe`, which lists the table's rows in their displayed
order); its value is the driver's summary bonus, every other key of the
driver carries `none`, and `none` is distinguishable from a zero bonus
total (`some 0`). -/
theorem c4_bonus_total_primeira_linha (l : List TripRecord) (d : String)
    (h : ∃ r ∈ l, r.motorista = d) :
    ∃ k, ((chaves_detalhe l).filter (fun p => p.1 == d)).head? = some k ∧
      k ∈ chaves_detalhe l ∧ k.1 = d ∧
      bonus_total_col l k = some (bonus_motorista_val l d) ∧
      (∀ k' ∈ chaves_detalhe l, k'.1 = d → k' ≠ k →
        bonus_total_col l k' = none) ∧
      (none : Option ℚ) ≠ some 0 := by
  obtain ⟨r, hr, hrd⟩ := h
  have hpair : (d, r.centro_custo) ∈ chaves_detalhe l := by
    rw [← hrd]
    exact mem_chaves_detalhe l r hr
  have hpf : (d, r.centro_custo) ∈
      (chaves_detalhe l).filter (fun p => p.1 == d) :=
    List.mem_filter.2 ⟨hpair, by simp⟩
  have hne : (chaves_detalhe l).filter (fun p => p.1 == d) ≠ [] :=
    List.ne_nil_of_mem hpf
  refine ⟨((chaves_detalhe l).filter (fun p => p.1 == d)).head hne,
    List.head?_eq_head hne, ?_, ?_, ?_, ?_, by simp⟩
  · exact (List.mem_filter.1 (List.head_mem hne)).1
  · have := (List.mem_filter.1 (List.head_mem hne)).2
    simpa using this
  · have hk1 : (((chaves_detalhe l).filter (fun p => p.1 == d)).head hne).1 = d := by
      have := (List.mem_filter.1 (List.head_mem hne)).2
      simpa using this
    unfold bonus_total_col
    rw [hk1, if_pos (List.head?_eq_head hne)]
  · intro k' hk' hk'1 hkne
    have hk1 : (((chaves_detalhe l).filter (fun p => p.1 == d)).head hne).1 = d := by
      have := (List.mem_filter.1 (List.head_mem hne)).2
      simpa using this
    unfold bonus_total_col
    rw [hk'1, if_neg]
    intro hcon
    rw [List.head?_eq_head hne] at hcon
    have h2 : ((chaves_detalhe l).filter (fun p => p.1 == d)).head hne = k' := by
      injection hcon
    exact hkne h2.symm

/-- Witness for C4: the single-record data set of the `"NAN"` driver. -/
theorem c4_bonus_total_primeira_linha_witness :
    ∃ k, ((chaves_detalhe [recC1]).filter (fun p => p.1 == "NAN")).head? =
        some k ∧
      k ∈ chaves_detalhe [recC1] ∧ k.1 = "NAN" ∧
      bonus_total_col [recC1] k = some (bonus_motorista_val [recC1] "NAN") ∧
      (∀ k' ∈ chaves_detalhe [recC1], k'.1 = "NAN" → k' ≠ k →
        bonus_total_col [recC1] k' = none) ∧
      (none : Option ℚ) ≠ some 0 :=
  c4_bonus_total_primeira_linha [recC1] "NAN"
    ⟨recC1, List.mem_singleton_self recC1, rfl⟩

theorem rwAux_posFlanked (a c : List Char) (ha : a ≠ []) :
    ∀ (n : ℕ) (u s : List Char), s.length ≤ n →
      posFlanked a (u ++ s) →
      rwAux a c n u.getLast? s = s := by
  intro n
  induction n with
  | zero =>
    intro u s hlen _
    have hs : s = [] := List.eq_nil_of_length_eq_zero (Nat.le_zero.1 hlen)
    subst hs
    rfl
  | succ n ih =>
    intro u s hlen hfl
    simp only [rwAux]
    cases hcond : (a.isPrefixOf s && bdryBefore u.getLast? &&
        bdryAfter (s.drop a.length)) with
    | true =>
      exfalso
      simp only [Bool.and_eq_true] at hcond
      obtain ⟨⟨hpre, hbb⟩, hba⟩ := hcond
      obtain ⟨t, hts⟩ : ∃ t, a ++ t = s := by
        have := List.isPrefixOf_iff_prefix.1 hpre
        exact this
      have hslen : a.length ≤ s.length := by
        rw [← hts, List.length_append]
        exact Nat.le_add_right _ _
      have hi : u.length < (u ++ s).length := by
        rw [List.length_append]
        have : 0 < s.length := by
          rw [← hts, List.length_append]
          have := List.length_pos.2 ha
          omega
        omega
      have hocc : ((u ++ s).drop u.length).take a.length = a := by
        rw [List.drop_left, ← hts, List.take_left]
      rcases hfl u.length hi hocc with ⟨hpos, hw⟩ | hw
      · -- boundary-before contradiction
        have hgl : (u ++ s)[u.length - 1]? = u.getLast? := by
          rw [List.getElem?_append, if_pos (by omega), List.getLast?_eq_getElem?]
        unfold wordAtB at hw
        rw [hgl] at hw
        cases hgu : u.getLast? with
        | none => rw [hgu] at hw; simp at hw
        | some c0 =>
          rw [hgu] at hw hbb
          unfold bdryBefore at hbb
          rw [Bool.not_eq_true'] at hbb
          simp [hbb] at hw
      · -- boundary-after contradiction
        have hga : (u ++ s)[u.length + a.length]? = t[0]? := by
          rw [List.getElem?_append, if_neg (by omega)]
          have h1 : u.length + a.length - u.length = a.length := by omega
          rw [h1, ← hts, List.getElem?_append, if_neg (by omega)]
          have h2 : a.length - a.length = 0 := by omega
          rw [h2]
        have hdt : s.drop a.length = t := by
          rw [← hts]
          have : a.length = a.length + 0 := by omega
          rw [this, List.drop_append]
          rfl
        rw [hdt] at hba
        unfold wordAtB at hw
        rw [hga] at hw
        cases t with
        | nil => simp at hw
        | cons ch rest =>
          unfold bdryAfter at hba
          rw [Bool.not_eq_true'] at hba
          simp [hba] at hw
    | false =>
      cases s with
      | nil => rfl
      | cons ch rest =>
        rw [if_neg Bool.false_ne_true]
        show ch :: rwAux a c n (some ch) rest = ch :: rest
        have hlen2 : rest.length ≤ n := by
          simp only [List.length_cons] at hlen
          omega
        have hfl2 : posFlanked a ((u ++ [ch]) ++ rest) := by
          rw [← List.append_cons]
          exact hfl
        have hih := ih (u ++ [ch]) rest hlen2 hfl2
        rw [List.getLast?_concat] at hih
        rw [hih]

theorem replaceWord_id_of_posFlanked (a c s : List Char) (ha : a ≠ [])
    (h : posFlanked a s) : replaceWord a c s = s := by
  have := rwAux_posFlanked a c ha s.length [] s le_rfl (by simpa using h)
  simpa [replaceWord] using this

/-- **C7** — alias rewriting matches whole name tokens only: whenever
every occurrence of an alias inside a driver name is flanked by a word
character (i.e. the alias occurs only as part of a longer distinct
token), the substitution leaves the name unchanged; and a name that
*is* the alias, or contains it as whole tokens, is rewritten to the
canonical form. -/
theorem c7_substituicao_palavra_inteira :
    (∀ nome : List Char, posFlanked "VINICIUS".data nome →
      replaceWord "VINICIUS".data "VINÍCIUS".data nome = nome) ∧
    (∀ nome : List Char, posFlanked "MARCOS NASCIMENTO".data nome →
      replaceWord "MARCOS NASCIMENTO".data "MARCOS".data nome = nome) ∧
    padronizar_motorista "VINICIUS" = "VINÍCIUS" ∧
    padronizar_motorista "VINICIUS SILVA" = "VINÍCIUS SILVA" ∧
    padronizar_motorista "MARCOS NASCIMENTO" = "MARCOS" :=
  ⟨fun nome h => replaceWord_id_of_posFlanked _ _ nome (by decide) h,
    fun nome h => replaceWord_id_of_posFlanked _ _ nome (by decide) h,
    by decide, by decide, by decide⟩

/-- Witness for C7: `VINICIUSA` contains the alias `VINICIUS` only as a
proper part of a longer token and is left unchanged; likewise
`MARCOS NASCIMENTOS` for the alias `MARCOS NASCIMENTO`. -/
theorem c7_substituicao_palavra_inteira_witness :
    posFlanked "VINICIUS".data "VINICIUSA".data ∧
    replaceWord "VINICIUS".data "VINÍCIUS".data "VINICIUSA".data =
      "VINICIUSA".data ∧
    posFlanked "MARCOS NASCIMENTO".data "MARCOS NASCIMENTOS".data ∧
    replaceWord "MARCOS NASCIMENTO".data "MARCOS".data
      "MARCOS NASCIMENTOS".data = "MARCOS NASCIMENTOS".data :=
  ⟨by decide, c7_substituicao_palavra_inteira.1 "VINICIUSA".data (by decide),
    by decide, c7_substituicao_palavra_inteira.2.1 "MARCOS NASCIMENTOS".data
      (by decide)⟩

theorem char_toNat_ofNat (n : ℕ) (h : n.isValidChar) :
    (Char.ofNat n).toNat = n := by
  unfold Char.ofNat
  rw [dif_pos h]
  rfl

theorem upperChar_idem (c : Char) : upperChar (upperChar c) = upperChar c := by
  by_cases h1 : 97 ≤ c.toNat ∧ c.toNat ≤ 122
  · have hv : (c.toNat - 32).isValidChar := Or.inl (by omega)
    have hm := char_toNat_ofNat _ hv
    unfold upperChar
    rw [if_pos h1, hm]
    rw [if_neg (by omega), if_neg (by omega), if_neg (by omega)]
  · by_cases h2 : 0xE0 ≤ c.toNat ∧ c.toNat ≤ 0xFE ∧ c.toNat ≠ 0xF7
    · have hv : (c.toNat - 32).isValidChar := Or.inl (by omega)
      have hm := char_toNat_ofNat _ hv
      unfold upperChar
      rw [if_neg h1, if_pos h2, hm]
      rw [if_neg (by omega), if_neg (by omega), if_neg (by omega)]
    · by_cases h3 : c.toNat = 0xFF
      · have hv : (0x178 : ℕ).isValidChar := Or.inl (by omega)
        have hm := char_toNat_ofNat _ hv
        unfold upperChar
        rw [if_neg h1, if_neg h2, if_pos h3, hm]
        rw [if_neg (by omega), if_neg (by omega), if_neg (by omega)]
      · unfold upperChar
        rw [if_neg h1, if_neg h2, if_neg h3]
        rw [if_neg h1, if_neg h2, if_neg h3]

theorem head?_dropWhile_not_ws (s : List Char) (ch : Char)
    (h : (s.dropWhile isWs).head? = some ch) : isWs ch = false := by
  have hne : s.dropWhile isWs ≠ [] := by
    intro hnil
    rw [hnil] at h
    exact Option.noConfusion h
  have := List.head_dropWhile_not isWs s hne
  rw [List.head?_eq_head hne] at h
  obtain rfl : (s.dropWhile isWs).head hne = ch := by injection h
  exact this

theorem head?_prefixo {l t : List Char} (ch : Char)
    (h : l.head? = some ch) : (l ++ t).head? = some ch := by
  cases l with
  | nil => exact Option.noConfusion h
  | cons x xs => simpa using h

theorem trimChars_head_not_ws (s : List Char) (ch : Char)
    (h : (trimChars s).head? = some ch) : isWs ch = false := by
  unfold trimChars at h
  set t := s.dropWhile isWs with ht
  have hpre : ((t.reverse.dropWhile isWs).reverse : List Char) <+: t := by
    rw [← List.reverse_suffix, List.reverse_reverse]
    exact List.dropWhile_suffix isWs
  obtain ⟨t', htt⟩ := hpre
  apply head?_dropWhile_not_ws s ch
  rw [← ht, ← htt]
  exact head?_prefixo ch h

theorem trimChars_last_not_ws (s : List Char) (ch : Char)
    (h : (trimChars s).getLast? = some ch) : isWs ch = false := by
  unfold trimChars at h
  rw [List.getLast?_reverse] at h
  exact head?_dropWhile_not_ws _ ch h

theorem dropWhile_eq_self_of_head (l : List Char)
    (h : ∀ ch, l.head? = some ch → isWs ch = false) :
    l.dropWhile isWs = l := by
  cases l with
  | nil => rfl
  | cons x xs =>
    rw [List.dropWhile_cons, if_neg]
    rw [h x rfl]
    simp

theorem trimChars_eq_self (l : List Char)
    (hh : ∀ ch, l.head? = some ch → isWs ch = false)
    (hl : ∀ ch, l.getLast? = some ch → isWs ch = false) :
    trimChars l = l := by
  unfold trimChars
  rw [dropWhile_eq_self_of_head l hh]
  rw [dropWhile_eq_self_of_head l.reverse
    (fun ch h => hl ch (by rwa [List.head?_reverse] at h))]
  exact List.reverse_reverse l

theorem mem_rwAux (a c : List Char) :
    ∀ (n : ℕ) (prev : Option Char) (s : List Char) (x : Char),
      x ∈ rwAux a c n prev s → x ∈ s ∨ x ∈ c := by
  intro n
  induction n with
  | zero => intro prev s x hx; exact Or.inl hx
  | succ n ih =>
    intro prev s x hx
    simp only [rwAux] at hx
    split at hx
    · rcases List.mem_append.1 hx with hxc | hxr
      · exact Or.inr hxc
      · rcases ih _ _ _ hxr with hxs | hxc
        · exact Or.inl ((List.drop_suffix _ _).sublist.mem hxs)
        · exact Or.inr hxc
    · cases s with
      | nil => exact absurd hx (List.not_mem_nil x)
      | cons ch rest =>
        rcases List.mem_cons.1 hx with rfl | hxr
        · exact Or.inl (List.mem_cons_self _ _)
        · rcases ih _ _ _ hxr with hxs | hxc
          · exact Or.inl (List.mem_cons_of_mem _ hxs)
          · exact Or.inr hxc

theorem rwAux_nil (a c : List Char) (ha : a ≠ []) (n : ℕ) (prev : Option Char) :
    rwAux a c n prev [] = [] := by
  cases n with
  | zero => rfl
  | succ n =>
    obtain ⟨ah, at', rfl⟩ : ∃ ah at', a = ah :: at' := by
      cases a with
      | nil => exact absurd rfl ha
      | cons ah at' => exact ⟨ah, at', rfl⟩
    rfl

theorem rwAux_eq_nil_iff (a c : List Char) (ha : a ≠ []) (hc : c ≠ [])
    (n : ℕ) (prev : Option Char) (s : List Char) :
    rwAux a c n prev s = [] ↔ s = [] := by
  constructor
  · intro h
    by_contra hs
    cases n with
    | zero => exact hs h
    | succ n =>
      simp only [rwAux] at h
      split at h
      · exact hc (List.append_eq_nil.1 h).1
      · cases s with
        | nil => exact hs rfl
        | cons ch rest => exact List.noConfusion h
  · intro h
    subst h
    exact rwAux_nil a c ha n prev

theorem rwAux_head? (a c : List Char) (hc : c ≠ []) (n : ℕ)
    (prev : Option Char) (s : List Char) :
    (rwAux a c n prev s).head? = s.head? ∨
      (rwAux a c n prev s).head? = c.head? := by
  cases n with
  | zero => exact Or.inl rfl
  | succ n =>
    simp only [rwAux]
    split
    · refine Or.inr ?_
      obtain ⟨ch, ct, rfl⟩ : ∃ ch ct, c = ch :: ct := by
        cases c with
        | nil => exact absurd rfl hc
        | cons ch ct => exact ⟨ch, ct, rfl⟩
      rfl
    · cases s with
      | nil => exact Or.inl rfl
      | cons ch rest => exact Or.inl rfl

theorem getLast?_cons_ne_nil {α : Type} (x : α) {l : List α} (h : l ≠ []) :
    (x :: l).getLast? = l.getLast? := by
  have : ([x] ++ l).getLast? = l.getLast?.or [x].getLast? := List.getLast?_append
  rw [List.singleton_append] at this
  rw [this]
  cases hl : l.getLast? with
  | none =>
    exact absurd (List.getLast?_eq_none_iff.1 hl) h
  | some y => rfl

theorem getLast?_append_ne_nil {α : Type} (l : List α) {t : List α}
    (h : t ≠ []) : (l ++ t).getLast? = t.getLast? := by
  rw [List.getLast?_append]
  cases hl : t.getLast? with
  | none => exact absurd (List.getLast?_eq_none_iff.1 hl) h
  | some y => rfl

theorem getLast?_drop_ne_nil {α : Type} (l : List α) (k : ℕ)
    (h : l.drop k ≠ []) : (l.drop k).getLast? = l.getLast? := by
  conv_rhs => rw [← List.take_append_drop k l]
  rw [getLast?_append_ne_nil _ h]

theorem rwAux_getLast? (a c : List Char) (ha : a ≠ []) (hc : c ≠ []) :
    ∀ (n : ℕ) (prev : Option Char) (s : List Char),
      (rwAux a c n prev s).getLast? = s.getLast? ∨
        (rwAux a c n prev s).getLast? = c.getLast? := by
  intro n
  induction n with
  | zero => intro prev s; exact Or.inl rfl
  | succ n ih =>
    intro prev s
    simp only [rwAux]
    split
    · by_cases hd : s.drop a.length = []
      · rw [(rwAux_eq_nil_iff a c ha hc n _ _).2 hd, List.append_nil]
        exact Or.inr rfl
      · have hrec : rwAux a c n a.getLast? (s.drop a.length) ≠ [] := by
          intro hnil
          exact hd ((rwAux_eq_nil_iff a c ha hc n _ _).1 hnil)
        rw [getLast?_append_ne_nil c hrec]
        rcases ih a.getLast? (s.drop a.length) with hl | hl
        · rw [hl, getLast?_drop_ne_nil s a.length hd]
          exact Or.inl rfl
        · exact Or.inr hl
    · cases s with
      | nil => exact Or.inl rfl
      | cons ch rest =>
        show (ch :: rwAux a c n (some ch) rest).getLast? =
            (ch :: rest).getLast? ∨
          (ch :: rwAux a c n (some ch) rest).getLast? = c.getLast?
        by_cases hr : rest = []
        · subst hr
          rw [rwAux_nil a c ha]
          exact Or.inl rfl
        · have hrec : rwAux a c n (some ch) rest ≠ [] := by
            intro hnil
            exact hr ((rwAux_eq_nil_iff a c ha hc n _ _).1 hnil)
          rw [getLast?_cons_ne_nil ch hrec]
          rcases ih (some ch) rest with hl | hl
          · rw [hl, ← getLast?_cons_ne_nil ch hr]
            exact Or.inl rfl
          · exact Or.inr hl

theorem mem_trimChars {s : List Char} {x : Char} (h : x ∈ trimChars s) :
    x ∈ s := by
  unfold trimChars at h
  rw [List.mem_reverse] at h
  have h2 := (List.dropWhile_suffix isWs).sublist.mem h
  rw [List.mem_reverse] at h2
  exact (List.dropWhile_suffix isWs).sublist.mem h2

theorem mem_replaceWord {a c s : List Char} {x : Char}
    (h : x ∈ replaceWord a c s) : x ∈ s ∨ x ∈ c :=
  mem_rwAux a c s.length none s x h

theorem replaceWord_head? (a c : List Char) (hc : c ≠ []) (s : List Char) :
    (replaceWord a c s).head? = s.head? ∨ (replaceWord a c s).head? = c.head? :=
  rwAux_head? a c hc s.length none s

theorem replaceWord_getLast? (a c : List Char) (ha : a ≠ []) (hc : c ≠ [])
    (s : List Char) :
    (replaceWord a c s).getLast? = s.getLast? ∨
      (replaceWord a c s).getLast? = c.getLast? :=
  rwAux_getLast? a c ha hc s.length none s

theorem upperChar_fix_padronizar (s : String) (x : Char)
    (hx : x ∈ (padronizar_motorista s).data) : upperChar x = x := by
  have hx' : x ∈ replaceWord "MARCOS NASCIMENTO".data "MARCOS".data
      (replaceWord "VINICIUS".data "VINÍCIUS".data
        (trimChars (s.data.map upperChar))) := hx
  rcases mem_replaceWord hx' with h1 | h1
  · rcases mem_replaceWord h1 with h2 | h2
    · obtain ⟨y, _, rfl⟩ := List.mem_map.1 (mem_trimChars h2)
      exact upperChar_idem y
    · have hall : ∀ y ∈ "VINÍCIUS".data, upperChar y = y := by decide
      exact hall x h2
  · have hall : ∀ y ∈ "MARCOS".data, upperChar y = y := by decide
    exact hall x h1

theorem padronizar_head_not_ws (s : String) (ch : Char)
    (h : (padronizar_motorista s).data.head? = some ch) : isWs ch = false := by
  have h' : (replaceWord "MARCOS NASCIMENTO".data "MARCOS".data
      (replaceWord "VINICIUS".data "VINÍCIUS".data
        (trimChars (s.data.map upperChar)))).head? = some ch := h
  rcases replaceWord_head? "MARCOS NASCIMENTO".data "MARCOS".data (by decide)
      (replaceWord "VINICIUS".data "VINÍCIUS".data
        (trimChars (s.data.map upperChar))) with h2 | h2
  · rw [h2] at h'
    rcases replaceWord_head? "VINICIUS".data "VINÍCIUS".data (by decide)
        (trimChars (s.data.map upperChar)) with h3 | h3
    · rw [h3] at h'
      exact trimChars_head_not_ws _ ch h'
    · rw [h3] at h'
      have hv : ("VINÍCIUS".data.head? : Option Char) = some 'V' := by decide
      rw [hv] at h'
      obtain rfl : 'V' = ch := by injection h'
      decide
  · rw [h2] at h'
    have hm : ("MARCOS".data.head? : Option Char) = some 'M' := by decide
    rw [hm] at h'
    obtain rfl : 'M' = ch := by injection h'
    decide

theorem padronizar_last_not_ws (s : String) (ch : Char)
    (h : (padronizar_motorista s).data.getLast? = some ch) : isWs ch = false := by
  have h' : (replaceWord "MARCOS NASCIMENTO".data "MARCOS".data
      (replaceWord "VINICIUS".data "VINÍCIUS".data
        (trimChars (s.data.map upperChar)))).getLast? = some ch := h
  rcases replaceWord_getLast? "MARCOS NASCIMENTO".data "MARCOS".data (by decide)
      (by decide) (replaceWord "VINICIUS".data "VINÍCIUS".data
        (trimChars (s.data.map upperChar))) with h2 | h2
  · rw [h2] at h'
    rcases replaceWord_getLast? "VINICIUS".data "VINÍCIUS".data (by decide)
        (by decide) (trimChars (s.data.map upperChar)) with h3 | h3
    · rw [h3] at h'
      exact trimChars_last_not_ws _ ch h'
    · rw [h3] at h'
      have hv : ("VINÍCIUS".data.getLast? : Option Char) = some 'S' := by decide
      rw [hv] at h'
      obtain rfl : 'S' = ch := by injection h'
      decide
  · rw [h2] at h'
    have hm : ("MARCOS".data.getLast? : Option Char) = some 'S' := by decide
    rw [hm] at h'
    obtain rfl : 'S' = ch := by injection h'
    decide

theorem padronizar_fix (s : String)
    (hv : posFlanked "VINICIUS".data (padronizar_motorista s).data)
    (hm : posFlanked "MARCOS NASCIMENTO".data (padronizar_motorista s).data) :
    padronizar_motorista (padronizar_motorista s) = padronizar_motorista s := by
  have hupper : (padronizar_motorista s).data.map upperChar =
      (padronizar_motorista s).data := by
    have h1 : ∀ x ∈ (padronizar_motorista s).data, upperChar x = id x :=
      fun x hx => upperChar_fix_padronizar s x hx
    rw [List.map_congr_left h1, List.map_id]
  have htrim : trimChars (padronizar_motorista s).data =
      (padronizar_motorista s).data :=
    trimChars_eq_self _ (padronizar_head_not_ws s) (padronizar_last_not_ws s)
  have hr1 : replaceWord "VINICIUS".data "VINÍCIUS".data
      (padronizar_motorista s).data = (padronizar_motorista s).data :=
    replaceWord_id_of_posFlanked _ _ _ (by decide) hv
  have hr2 : replaceWord "MARCOS NASCIMENTO".data "MARCOS".data
      (padronizar_motorista s).data = (padronizar_motorista s).data :=
    replaceWord_id_of_posFlanked _ _ _ (by decide) hm
  show (⟨replaceWord "MARCOS NASCIMENTO".data "MARCOS".data
    (replaceWord "VINICIUS".data "VINÍCIUS".data
      (trimChars ((padronizar_motorista s).data.map upperChar)))⟩ : String) =
    padronizar_motorista s
  rw [hupper, htrim, hr1, hr2]

theorem mutate_recToRaw_fix (r : TripRecord) (d : ℤ) (hd : r.data = some d)
    (hfix : padronizar_motorista r.motorista = r.motorista) :
    mutateRecord (recToRaw r) = r := by
  obtain ⟨m, dt, cc, q, t⟩ := r
  simp only at hd hfix
  subst hd
  unfold mutateRecord recToRaw astype_str
  simp only [to_datetime_coerce, hfix]

/-- **C8 (counterexample)** — the normalizer is *not* idempotent: the
set `[recMN]` (driver `MARCOS NASCIMENTO`) is itself the output of
normalizing `[rawMNN]` (driver `MARCOS NASCIMENTO NASCIMENTO`), yet
feeding it back through `limpar_e_filtrar_dados` over the same
containing date range rewrites the driver once more, to `MARCOS`,
yielding a different record set. -/
theorem c8_contraexemplo_idempotencia :
    limpar_e_filtrar_dados [rawMNN] 0 10 = Except.ok [recMN] ∧
    limpar_e_filtrar_dados ([recMN].map recToRaw) 0 10 = Except.ok [recM] ∧
    recMN ≠ recM ∧
    recMN.motorista = "MARCOS NASCIMENTO" ∧ recM.motorista = "MARCOS" :=
  ⟨by decide, by decide, by decide, rfl, rfl⟩

/-- **C8 (amended)** — restricted idempotence: normalizing an
already-normalized record set (over any date range containing its
dates) yields the same set *provided no normalized driver name still
contains a whole-word alias occurrence* — upper-casing, trimming and
alias substitution then change nothing.  (The proviso is forced by the
counterexample: replacing `MARCOS NASCIMENTO` inside
`MARCOS NASCIMENTO NASCIMENTO` recreates the alias, and only such
recreated aliases can survive one normalization.) -/
theorem c8_idempotencia_corrigida (dados : List RawRecord)
    (data_ini data_fim ini2 fim2 : ℤ) (out : List TripRecord)
    (hok : limpar_e_filtrar_dados dados data_ini data_fim = Except.ok out)
    (halias : ∀ r ∈ out,
      posFlanked "VINICIUS".data r.motorista.data ∧
      posFlanked "MARCOS NASCIMENTO".data r.motorista.data)
    (hrange : ∀ r ∈ out, ∀ d : ℤ, r.data = some d → ini2 ≤ d ∧ d ≤ fim2) :
    limpar_e_filtrar_dados (out.map recToRaw) ini2 fim2 = Except.ok out := by
  obtain ⟨hreg, hne⟩ := (limpar_ok_iff dados data_ini data_fim out).1 hok
  have hdata : ∀ r ∈ out, ∃ d : ℤ, r.data = some d := by
    intro r hr
    rw [← hreg] at hr
    obtain ⟨-, d, hd, -, -⟩ :=
      (mem_registros_apos_filtro dados data_ini data_fim r).1 hr
    exact ⟨d, hd⟩
  have hfix : ∀ r ∈ out, mutateRecord (recToRaw r) = r := by
    intro r hr
    obtain ⟨d, hd⟩ := hdata r hr
    have hr' : r ∈ registros_apos_filtro dados data_ini data_fim := by
      rw [hreg]; exact hr
    obtain ⟨hmap, -⟩ :=
      (mem_registros_apos_filtro dados data_ini data_fim r).1 hr'
    obtain ⟨raw, -, hraweq⟩ := List.mem_map.1 hmap
    have hmot : r.motorista = padronizar_motorista (astype_str raw.motorista) := by
      rw [← hraweq]
      rfl
    have hpad : padronizar_motorista r.motorista = r.motorista := by
      rw [hmot]
      exact padronizar_fix (astype_str raw.motorista)
        (by rw [← hmot]; exact (halias r hr).1)
        (by rw [← hmot]; exact (halias r hr).2)
    exact mutate_recToRaw_fix r d hd hpad
  have hmapmap : (out.map recToRaw).map mutateRecord = out := by
    rw [List.map_map]
    have h1 : ∀ r ∈ out, (mutateRecord ∘ recToRaw) r = id r :=
      fun r hr => hfix r hr
    rw [List.map_congr_left h1, List.map_id]
  have hreg2 : registros_apos_filtro (out.map recToRaw) ini2 fim2 = out := by
    unfold registros_apos_filtro
    rw [hmapmap]
    have h1 : out.filter (fun r => r.data.isSome) = out := by
      rw [List.filter_eq_self]
      intro r hr
      obtain ⟨d, hd⟩ := hdata r hr
      rw [hd]
      rfl
    rw [h1, List.filter_eq_self]
    intro r hr
    obtain ⟨d, hd⟩ := hdata r hr
    obtain ⟨hd1, hd2⟩ := hrange r hr d hd
    unfold maskData
    rw [hd]
    simp [hd1, hd2]
  exact (limpar_ok_iff (out.map recToRaw) ini2 fim2 out).2 ⟨hreg2, hne⟩

/-- Witness for the amended C8: a one-record normalized set with a
canonical, alias-free driver name renormalizes to itself. -/
theorem c8_idempotencia_corrigida_witness :
    limpar_e_filtrar_dados ([recAna].map recToRaw) 0 10 = Except.ok [recAna] :=
  c8_idempotencia_corrigida [rawAna] 0 10 0 10 [recAna] (by decide) (by decide)
    (fun r hr d hd => by
      rw [List.mem_singleton] at hr
      subst hr
      have hd5 : (some (5 : ℤ) : Option ℤ) = some d := hd
      obtain rfl : (5 : ℤ) = d := by injection hd5
      exact ⟨by decide, by decide⟩)
